import Mathlib

/-!
# Verification of the VelocyPack (Jason) builder and dumper

A shallow embedding, in Lean 4, of the JasonBuilder (container sealing,
attribute sorting, attribute-uniqueness checking, integer emission) and of
the JasonDumper (JSON string escaping, unsupported-type handling) from the
velocypack sources, together with theorems settling the specification
claims about them.

Conventions used throughout:
* bytes are `Nat` values (< 256 in all reachable states); buffers are
  `List Nat` whose length is the C++ `_pos` (the writable append position);
* machine-integer truncations (`uint8_t`, `uint16_t` casts) are written as
  explicit `% 256` / `% 65536`;
* C++ exceptions become `Except String` with the exact message thrown by
  the source; `std::sort` becomes `List.mergeSort` with the translated
  comparator (any comparison sort agrees on the sortedness property proved
  here).
-/

set_option maxRecDepth 20000

namespace VPack

/-- Little-endian byte emission: the source's write loops
`_start[_pos++] = x & 0xff; x >>= 8;` executed `n` times. -/
def leBytes (v n : Nat) : List Nat :=
  (List.range n).map fun i => v / 256 ^ i % 256

/-- Little-endian read of `n` bytes starting at position `s`
(out-of-range reads give 0; reachable states never perform them). -/
def readLE (buf : List Nat) (s n : Nat) : Nat :=
  ((List.range n).map fun i => buf.getD (s + i) 0 * 256 ^ i).sum

/-- The `l` bytes stored at positions `s, s+1, ...` of the buffer. -/
def readBytes (buf : List Nat) (s l : Nat) : List Nat :=
  (List.range l).map fun i => buf.getD (s + i) 0

/-- `memcmp(a, b, min |a| |b|)` as a three-way comparison: compares the
two byte sequences pointwise and stops when either is exhausted. -/
def memcmpO : List Nat → List Nat → Ordering
  | [], _ => .eq
  | _ :: _, [] => .eq
  | a :: as, b :: bs => if a < b then .lt else if b < a then .gt else memcmpO as bs

/-- The strict key order used by all the builder's attribute comparators:
`memcmp` over the common length, and on an equal common prefix the
shorter key is smaller (source: `res < 0 || (res == 0 && sizea < sizeb)`). -/
def keyLt (a b : List Nat) : Bool :=
  match memcmpO a b with
  | .lt => true
  | .gt => false
  | .eq => decide (a.length < b.length)

/-! ## Attribute-name resolution and the object-index sort
(source: `JasonBuilder::findAttrName`, `sortObjectIndexShort`,
`sortObjectIndexLong`, `doActualSortLarge`). -/

/-- `findAttrName(base, len)`: resolves a key's payload start and length
from its tag byte.  Tags `0x40..0xbf` are short strings with inline
length; tag `0x0c` is a long string with an 8-byte little-endian length
(the source reads `base[8] … base[1]` most-significant first).  Any other
tag makes the source throw "Unimplemented attribute name type.";
that case is `none` here. -/
def findAttrName (buf : List Nat) (base : Nat) : Option (Nat × Nat) :=
  if 0x40 ≤ buf.getD base 0 ∧ buf.getD base 0 ≤ 0xbf then
    some (base + 1, buf.getD base 0 - 0x40)
  else if buf.getD base 0 = 0x0c then some (base + 1 + 8, readLE buf (base + 1) 8)
  else none

/-- The bytes of the key whose tag sits at offset `off` from the
container start `tos` (empty for a tag `findAttrName` rejects; the
builder only ever stores string keys, so that default is never exercised
by reachable objects). -/
def keyAtD (buf : List Nat) (tos off : Nat) : List Nat :=
  match findAttrName buf (tos + off) with
  | some (p, l) => readBytes buf p l
  | none => []

/-- The comparator of `sortObjectIndexShort` (source lines 505-524): a
fast path when both tags are short strings (memcmp over the shorter
inline length, ties broken by the tag bytes, i.e. by length), and a
general path through `findAttrName` otherwise.  Where the source's
general path would throw on a non-string key tag, the comparator here
uses the empty name instead (reachable objects never hit that case). -/
def cmpShort (buf : List Nat) (tos a b : Nat) : Bool :=
  let ta := buf.getD (tos + a) 0
  let tb := buf.getD (tos + b) 0
  if 0x40 ≤ ta ∧ ta ≤ 0xbf ∧ 0x40 ≤ tb ∧ tb ≤ 0xbf then
    match memcmpO (readBytes buf (tos + a + 1) (ta - 0x40))
                  (readBytes buf (tos + b + 1) (tb - 0x40)) with
    | .lt => true
    | .gt => false
    | .eq => decide (ta < tb)
  else
    let fa := (findAttrName buf (tos + a)).getD (tos + a + 1, 0)
    let fb := (findAttrName buf (tos + b)).getD (tos + b + 1, 0)
    match memcmpO (readBytes buf fa.1 fa.2) (readBytes buf fb.1 fb.2) with
    | .lt => true
    | .gt => false
    | .eq => decide (fa.2 < fb.2)

/-- The comparator of `doActualSortLarge` (source lines 467-482), with the
name pointer and length resolved by `findAttrName` exactly as
`sortObjectIndexLong` does when building its `SortEntryLarge` records
(again with an empty-name default where the source would throw). -/
def cmpLarge (buf : List Nat) (tos a b : Nat) : Bool :=
  let fa := (findAttrName buf (tos + a)).getD (tos + a + 1, 0)
  let fb := (findAttrName buf (tos + b)).getD (tos + b + 1, 0)
  match memcmpO (readBytes buf fa.1 fa.2) (readBytes buf fb.1 fb.2) with
  | .lt => true
  | .gt => false
  | .eq => decide (fa.2 < fb.2)

/-- `sortObjectIndexShort`: `std::sort` of the per-entry offsets by the
key comparator; modelled by `mergeSort` under the induced non-strict
order (any comparison sort produces a sequence that is sorted in this
sense). -/
def sortObjectIndexShort (buf : List Nat) (tos : Nat) (offsets : List Nat) : List Nat :=
  offsets.mergeSort fun x y => ! cmpShort buf tos y x

/-- `sortObjectIndexLong`: same, through the `SortEntryLarge` records. -/
def sortObjectIndexLong (buf : List Nat) (tos : Nat) (offsets : List Nat) : List Nat :=
  offsets.mergeSort fun x y => ! cmpLarge buf tos y x

/-! ## Integer emission (source: `JasonBuilder::uintLength`,
`appendLength`, `appendUInt`). -/

/-- The do-while loop of `uintLength`: counts base-256 digits, at least
one iteration. -/
def byteCount (v : Nat) : Nat :=
  if h : v < 256 then 1 else byteCount (v / 256) + 1
decreasing_by exact Nat.div_lt_self (by omega) (by omega)

/-- `JasonBuilder::uintLength` (source lines 854-866): number of bytes
required to store `value`, with the `value ≤ 0xff ⇒ 1` shortcut. -/
def uintLength (value : Nat) : Nat :=
  if value ≤ 0xff then 1 else byteCount value

/-- `JasonBuilder::appendUInt` (source lines 1298-1306): appends the tag
byte `base + vSize` followed by the `vSize = uintLength v` payload bytes
in little-endian order. -/
def appendUInt (v base : Nat) (buf : List Nat) : List Nat :=
  buf ++ (base + uintLength v) % 256 :: leBytes v (uintLength v)

/-! ## The builder state and its operations
(source: `JasonBuilder` fields and methods). -/

/-- The subset of `JasonOptions` the embedded builder operations read. -/
structure JasonOptions where
  sortAttributeNames : Bool
  checkAttributeUniqueness : Bool
deriving Repr, DecidableEq

/-- The builder state: `buf` is `_start[0 .. _pos)` (so `_pos` is
`buf.length`), `stack` holds the open containers' start positions with
the innermost (`_stack.back()`) at the head, and `index` is `_index`,
the per-depth entry-offset vectors (depth 0 first). -/
structure BState where
  buf : List Nat
  stack : List Nat
  index : List (List Nat)
  attrWritten : Bool
deriving Repr, DecidableEq

/-- The freshly constructed builder. -/
def bEmpty : BState := ⟨[], [], [], false⟩

/-- Writes the given bytes at consecutive positions starting at `p`
(in-place `_start[p+i] = b_i` stores). -/
def writeBytesAt (buf : List Nat) (p : Nat) : List Nat → List Nat
  | [] => buf
  | b :: bs => writeBytesAt (buf.set p b) (p + 1) bs

/-- The small index table write (source lines 769-773): for each offset,
its `uint16_t` cast stored as two little-endian bytes. -/
def writeTable2 (buf : List Nat) (base : Nat) : List Nat → List Nat
  | [] => buf
  | x :: xs =>
    writeTable2 ((buf.set base (x % 65536 % 256)).set (base + 1) (x % 65536 / 256)) (base + 2) xs

/-- The large index table write (source lines 796-802): each offset as
8 little-endian bytes. -/
def writeTable8 (buf : List Nat) (base : Nat) : List Nat → List Nat
  | [] => buf
  | x :: xs => writeTable8 (writeBytesAt buf base (leBytes x 8)) (base + 8) xs

/-- `JasonBuilder::addCompoundValue` (source lines 974-985): push the
current position, make sure `_index` has a (cleared) vector for this
depth, and emit the 10 header bytes: the tag, a zero short-bytelength
byte, and the 8-byte slot for a possible long bytelength.  The source
leaves the 8 slot bytes uninitialized; they are written as zeros here —
`close()` either discards them (small path) or overwrites them (large
path), so their value is unobservable. -/
def addCompoundValue (t : Nat) (st : BState) : BState :=
  let stack1 := st.buf.length :: st.stack
  let index1 := st.index ++ List.replicate (stack1.length - st.index.length) []
  { buf := st.buf ++ t :: 0 :: List.replicate 8 0,
    stack := stack1,
    index := index1.set (stack1.length - 1) [],
    attrWritten := st.attrWritten }

/-- `JasonBuilder::reportAdd`: record the offset (from the container
start `base`) of the subvalue about to be written. -/
def reportAdd (base : Nat) (st : BState) : BState :=
  let depth := st.stack.length - 1
  { st with index := st.index.set depth (st.index.getD depth [] ++ [st.buf.length - base]) }

/-- The `Jason` argument values of `set`/`add` that the claims exercise
(scalars are emitted with their source tag bytes; `Double`, `External`,
`UTCDate`, `ID`, `Binary` and `BCD` do not occur in any claim and are
omitted from the embedding). -/
inductive Jason where
  | null
  | boolV (b : Bool)
  | str (s : List Nat)
  | arrayOpen
  | objectOpen
deriving Repr, DecidableEq

/-- Whether `Jason::isString()` holds (used by `add` for object keys). -/
def Jason.isString : Jason → Bool
  | .str _ => true
  | _ => false

/-- `JasonBuilder::set` for the modelled cases (source lines 995-1237).
For a long string the source emits the tag `0x0c` and the 8-byte length,
then `memcpy`s the payload at `_pos` *without* advancing `_pos` (the
`_pos += size` of the short branch has no counterpart there), so the
payload bytes lie beyond the append position and are not part of the
value; the model reflects that by not appending them. -/
def JasonBuilder.set (item : Jason) (st : BState) : BState :=
  match item with
  | .null => { st with buf := st.buf ++ [0x01] }
  | .boolV b => { st with buf := st.buf ++ [if b then 0x03 else 0x02] }
  | .str s =>
    if s.length ≤ 127 then { st with buf := st.buf ++ (0x40 + s.length) :: s }
    else { st with buf := st.buf ++ 0x0c :: leBytes s.length 8 }
  | .arrayOpen => addCompoundValue 0x05 st
  | .objectOpen => addCompoundValue 0x07 st

/-- `JasonBuilder::add(Jason const&)` (source lines 675-696): with an
open container on the stack, validate the context, record the offset
(for arrays always; for objects only when a key is being added, with the
key/value alternation tracked by `_attrWritten`), then `set` the value. -/
def JasonBuilder.add (sub : Jason) (st : BState) : Except String BState :=
  match st.stack with
  | [] => .ok (JasonBuilder.set sub st)
  | tos :: _ =>
    if st.buf.getD tos 0 < 0x05 ∨ 0x08 < st.buf.getD tos 0 then
      .error "Need open array or object for add() call."
    else if 0x07 ≤ st.buf.getD tos 0 then
      if st.attrWritten = false ∧ sub.isString = false then
        .error "Need open object for this add() call."
      else
        let st1 := if st.attrWritten = false then reportAdd tos st else st
        .ok (JasonBuilder.set sub { st1 with attrWritten := ! st.attrWritten })
    else
      .ok (JasonBuilder.set sub (reportAdd tos st))

/-- The two `smallTable` trailer writes of `close()` (source lines
755-777): optionally extend by `2n+1` reserved bytes, force the small
tag, sort an object's offsets, write the 2-byte offsets at the table
base, and store the entry count in the last byte (for `n = 0` this
overwrites the byte at `_pos - 1`; it is itself overwritten by the
bytelength afterwards). -/
def closeTableSmall (opts : JasonOptions) (tos : Nat) (buf : List Nat)
    (idx : List Nat) : List Nat :=
  let n := idx.length
  let buf2 := if n ≠ 0 then buf ++ List.replicate (2 * n + 1) 0 else buf
  let buf3 := if (buf2.getD tos 0) % 2 = 0 then buf2.set tos (buf2.getD tos 0 - 1) else buf2
  let idx2 :=
    if buf3.getD tos 0 = 0x07 ∧ 2 ≤ n ∧ opts.sortAttributeNames then
      sortObjectIndexShort buf3 tos idx
    else idx
  let buf4 := writeTable2 buf3 buf.length idx2
  buf4.set (buf4.length - 1) (n % 256)

/-- The large-table trailer of `close()` (source lines 779-803): extend
by `8n+8` bytes, force the large tag, sort an object's offsets, write
the 8-byte count in the final 8 bytes and the 8-byte offsets at the
table base. -/
def closeTableLarge (opts : JasonOptions) (tos : Nat) (buf : List Nat)
    (idx : List Nat) : List Nat :=
  let n := idx.length
  let buf2 := buf ++ List.replicate (8 * n + 8) 0
  let buf3 := if (buf2.getD tos 0) % 2 = 1 then buf2.set tos (buf2.getD tos 0 + 1) else buf2
  let idx2 :=
    if buf3.getD tos 0 = 0x08 ∧ 2 ≤ n ∧ opts.sortAttributeNames then
      sortObjectIndexLong buf3 tos idx
    else idx
  let buf4 := writeBytesAt buf3 (buf3.length - 8) (leBytes n 8)
  writeTable8 buf4 buf.length idx2

/-- The bytelength write of `close()` (source lines 804-814): small form
stores `_pos - tos` (a `uint8_t`) at `tos+1`; large form stores a zero
there and the 8-byte little-endian length at `tos+2 .. tos+9`. -/
def writeByteLength (smallBL : Bool) (tos : Nat) (buf : List Nat) : List Nat :=
  if smallBL then buf.set (tos + 1) ((buf.length - tos) % 256)
  else writeBytesAt (buf.set (tos + 1) 0) (tos + 2) (leBytes (buf.length - tos) 8)

/-- `JasonBuilder::close` (source lines 720-826).  Besides the resulting
state the model returns the source's two local choice flags
`smallByteLength` and `smallTable`, which the sealing claims are about.
The small bytelength path reclaims the 8 unused header bytes by the
`memmove` (modelled as `take (tos+2) ++ drop (tos+10)`) and shifts every
recorded offset down by 8.  The final `checkAttributeUniqueness` call
(source lines 816-820) inspects the sealed value through `JasonSlice`
accessors whose code is not among the sources; that check is modelled
and verified separately at value level (`checkAU` below), and the
byte-level close here covers builds with that option disabled. -/
def JasonBuilder.close (opts : JasonOptions) (st : BState) :
    Except String (BState × Bool × Bool) :=
  match st.stack with
  | [] => .error "Need open array or object for close() call."
  | tos :: stackRest =>
    if st.buf.getD tos 0 < 0x05 ∨ 0x08 < st.buf.getD tos 0 then
      .error "Need open array or object for close() call."
    else
      let index0 := st.index.getD stackRest.length []
      let n := index0.length
      let smallByteLength : Bool :=
        decide (n < 0x100 ∧ st.buf.length - tos - 8 + 1 + 2 * n < 0x100)
      let buf1 := if smallByteLength then st.buf.take (tos + 2) ++ st.buf.drop (tos + 10)
                  else st.buf
      let index1 := if smallByteLength then index0.map (· - 8) else index0
      let smallTable : Bool :=
        smallByteLength || decide (n < 0x100 ∧ (n = 0 ∨ index0.getLastD 0 < 0x10000))
      let bufT := if smallTable then closeTableSmall opts tos buf1 index1
                  else closeTableLarge opts tos buf1 index1
      let bufL := writeByteLength smallByteLength tos bufT
      .ok ({ st with buf := bufL, stack := stackRest }, smallByteLength, smallTable)

/-- `JasonBuilder::slice` (source lines 631-633): returns
`JasonSlice(_start)` — a view of the buffer from its start — with no
check whatsoever of the builder's state. -/
def JasonBuilder.slice (st : BState) : Except String (List Nat) :=
  .ok st.buf

/-- `JasonBuilder::size` (source lines 635-641): the byte length of the
built value; throws unless the container stack is empty. -/
def JasonBuilder.size (st : BState) : Except String Nat :=
  if st.stack.isEmpty then .ok st.buf.length
  else .error "Jason object not sealed."

/-! ## The SmallInt case of `set` (source lines 1056-1081). -/

/-- The C-type carried by a `Jason` number (`Jason::CType`); the
`Double` carrier is omitted (its conversion is a floating-point cast). -/
inductive CNum where
  | int64 (v : Int)
  | uint64 (v : Nat)
deriving Repr, DecidableEq

/-- The `JasonType::SmallInt` case of `JasonBuilder::set`, returning the
byte it appends.  Note the source's `case Jason::CType::UInt64:` arm
assigns `vv` and then falls through into the `default:` arm (there is no
`break`), so a `UInt64`-carried value always throws "Must give number
for JasonType::SmallInt." regardless of its range. -/
def setSmallInt : CNum → Except String (List Nat)
  | .int64 vv =>
    if vv < -8 ∨ 7 < vv then .error "Number out of range of JasonType::SmallInt."
    else if 0 ≤ vv then .ok [(vv + 0x30).toNat]
    else .ok [(vv + 8 + 0x38).toNat]
  | .uint64 _ => .error "Must give number for JasonType::SmallInt."

/-! ## The attribute-uniqueness check
(source: `JasonBuilder::checkAttributeUniqueness`, lines 1317-1346).
The check walks the sealed object through `JasonSlice::length`,
`keyAt`, `valueAt`, `getString` and `isString`.  The `JasonSlice` code
is not among the sources; per the specification (§4.2) `keyAt(i)` /
`valueAt(i)` return the i-th key/value in index-table order and
`getString` the key's bytes, so the object is modelled as the list of
its key/value pairs in table order. -/

/-- Modelled from the spec: a sealed value as seen through the
`JasonSlice` accessors used by the uniqueness check — a string (with its
bytes), an object (its key/value entries in index-table order), or any
other value. -/
inductive JVal where
  | str (s : List Nat)
  | obj (entries : List (JVal × JVal))
  | other

/-- `JasonSlice::isObject`. -/
def JVal.isObj : JVal → Bool
  | .obj _ => true
  | _ => false

/-- `JasonSlice::getString` on a key; a non-string argument would make
the source throw a type error, modelled by the empty byte string (the
builder only stores string keys, so this default is unreachable in
sealed objects). -/
def getStringD : JVal → List Nat
  | .str s => s
  | _ => []

mutual

/-- `checkAttributeUniqueness(obj)`: `true` means the source throws
"duplicate attribute name.".  It reads `keyAt(0)` and then walks the
remaining entries, comparing each key only with its predecessor
(`len == len2 && memcmp(p, q, len2) == 0`), aborting silently on a
non-string key, and recursing into object values from position 1 on. -/
def checkAU : JVal → Bool
  | .obj (e :: rest) => checkAULoop (getStringD e.1) rest
  | _ => false

/-- The `for (i = 1; i < n; ++i)` loop of the check; `p` is the previous
key's bytes. -/
def checkAULoop : List Nat → List (JVal × JVal) → Bool
  | _, [] => false
  | p, (k, v) :: rest =>
    match k with
    | .str q =>
      if p = q then true
      else (if v.isObj then checkAU v else false) || checkAULoop q rest
    | _ => false

end

/-- Adjacent duplicate in a list of keys (the situation the check
actually detects). -/
def hasAdjDup : List (List Nat) → Bool
  | a :: b :: t => a = b || hasAdjDup (b :: t)
  | _ => false

/-! ## The dumper (source: `JasonDumper`, in particular `dumpString`
lines 248-359, `internalDump` lines 86-183, `handleUnsupportedType`
lines 375-381). -/

/-- The `EscapeTable` of `dumpString` (source lines 249-267) as a
function: the escape letter for the byte, or `0` for none.  Escaped are
the control bytes `0x00..0x1f` (named letters for `\b \t \n \f \r`,
letter `u` otherwise), the double quote, the forward slash and the
backslash. -/
def escapeTable (c : Nat) : Nat :=
  if c = 0x08 then 98
  else if c = 0x09 then 116
  else if c = 0x0a then 110
  else if c = 0x0c then 102
  else if c = 0x0d then 114
  else if c < 0x20 then 117
  else if c = 0x22 then 34
  else if c = 0x2f then 47
  else if c = 0x5c then 92
  else 0

/-- `dumpHexCharacter`-style nibble to ASCII hex digit. -/
def hexChar (u : Nat) : Nat := if u < 10 then 48 + u else 65 + u - 10

/-- What `dumpString` emits for a single ASCII byte: the escape sequence
(backslash + letter, extended to `\u00XX` for the letter `u`), or the
byte itself. -/
def escFull (c : Nat) : List Nat :=
  let esc := escapeTable c
  if esc = 0 then [c]
  else if esc = 117 then [92, 117, 48, 48, hexChar (c / 16 % 16), hexChar (c % 16)]
  else [92, esc]

/-- `JasonDumper::dumpString` (source lines 248-359): ASCII bytes are
escaped or copied; bytes matching the two-, three- or four-byte UTF-8
lead patterns are copied together with their continuation bytes
(truncated sequences throw "unexpected end of string", modelled by
`none`); any other byte — a continuation byte `0x80..0xbf` or a byte
`≥ 0xf8` — matches no branch and is skipped by the loop's `++p`. -/
def dumpString : List Nat → Option (List Nat)
  | [] => some []
  | c :: rest =>
    if c &&& 0x80 = 0 then
      Option.map (fun out => escFull c ++ out) (dumpString rest)
    else if c &&& 0xe0 = 0xc0 then
      if rest.length < 1 then none
      else Option.map (fun out => (c :: rest.take 1) ++ out) (dumpString (rest.drop 1))
    else if c &&& 0xf0 = 0xe0 then
      if rest.length < 2 then none
      else Option.map (fun out => (c :: rest.take 2) ++ out) (dumpString (rest.drop 2))
    else if c &&& 0xf8 = 0xf0 then
      if rest.length < 3 then none
      else Option.map (fun out => (c :: rest.take 3) ++ out) (dumpString (rest.drop 3))
    else
      dumpString rest
termination_by s => s.length
decreasing_by all_goals simp [List.length_drop]; try omega

/-- A UTF-8 continuation byte. -/
def isCont (c : Nat) : Bool := decide (0x80 ≤ c ∧ c ≤ 0xbf)

/-- Decomposition of a byte string into UTF-8 units: single ASCII bytes
and two-, three- or four-byte sequences (lead byte pattern plus continuation
bytes).  Every valid UTF-8 string decomposes this way (the decomposition
accepts a superset of valid UTF-8, which suffices for a claim that
assumes validity). -/
def utf8Chunks : List Nat → Option (List (List Nat))
  | [] => some []
  | c :: rest =>
    if c &&& 0x80 = 0 then
      Option.map (fun cs => [c] :: cs) (utf8Chunks rest)
    else if c &&& 0xe0 = 0xc0 then
      if rest.length < 1 ∨ ¬ (rest.take 1).all isCont then none
      else Option.map (fun cs => (c :: rest.take 1) :: cs) (utf8Chunks (rest.drop 1))
    else if c &&& 0xf0 = 0xe0 then
      if rest.length < 2 ∨ ¬ (rest.take 2).all isCont then none
      else Option.map (fun cs => (c :: rest.take 2) :: cs) (utf8Chunks (rest.drop 2))
    else if c &&& 0xf8 = 0xf0 then
      if rest.length < 3 ∨ ¬ (rest.take 3).all isCont then none
      else Option.map (fun cs => (c :: rest.take 3) :: cs) (utf8Chunks (rest.drop 3))
    else none
termination_by s => s.length
decreasing_by all_goals simp [List.length_drop]; try omega

/-- What the dumper emits for one UTF-8 unit: an ASCII byte is escaped
or copied, a multi-byte sequence is copied verbatim. -/
def renderChunk : List Nat → List Nat
  | [c] => escFull c
  | l => l

/-- The dumper's unsupported-type strategies. -/
inductive Strategy where
  | suppress
  | fail
deriving Repr, DecidableEq

/-- Modelled from the spec: a value as seen through the `JasonSlice`
accessors used by `internalDump` (`type`, `length`, `at`, `keyAt`,
`valueAt`, `getBool`, `getString`) whose code is not among the sources:
arrays and objects carry their entries in index-table order.  The
numeric, `Double` and `External` kinds play no role in the
unsupported-type claim and are omitted. -/
inductive JSlice where
  | nullV
  | boolV (b : Bool)
  | strV (s : List Nat)
  | arrV (elems : List JSlice)
  | objV (entries : List (JSlice × JSlice))
  | noneV
  | idV
  | arangoIdV
  | utcDateV
  | binaryV
  | bcdV

/-- The tags `internalDump` routes to `handleUnsupportedType`:
`None, ID, ArangoDB_id, UTCDate, Binary, BCD`. -/
def JSlice.isUnsupported : JSlice → Bool
  | .noneV | .idV | .arangoIdV | .utcDateV | .binaryV | .bcdV => true
  | _ => false

/-- `JasonDumper::handleUnsupportedType`: under `STRATEGY_SUPPRESS` it
returns, emitting nothing; otherwise it throws. -/
def handleUnsupportedType (strat : Strategy) : Except String (List Nat) :=
  match strat with
  | .suppress => .ok []
  | .fail => .error "unsupported type - cannot convert to JSON"

mutual

/-- `JasonDumper::internalDump` for the modelled kinds, producing the
emitted bytes.  In arrays and objects a comma is pushed before every
entry except the first, regardless of what the entry's dump emits. -/
def internalDump (strat : Strategy) : JSlice → Except String (List Nat)
  | .nullV => .ok [110, 117, 108, 108]
  | .boolV b => .ok (if b then [116, 114, 117, 101] else [102, 97, 108, 115, 101])
  | .strV s =>
    match dumpString s with
    | some out => .ok (34 :: (out ++ [34]))
    | none => .error "unexpected end of string"
  | .arrV es =>
    match dumpArrayElems strat es true with
    | .ok body => .ok (91 :: (body ++ [93]))
    | .error e => .error e
  | .objV kvs =>
    match dumpObjectElems strat kvs true with
    | .ok body => .ok (123 :: (body ++ [125]))
    | .error e => .error e
  | .noneV => handleUnsupportedType strat
  | .idV => handleUnsupportedType strat
  | .arangoIdV => handleUnsupportedType strat
  | .utcDateV => handleUnsupportedType strat
  | .binaryV => handleUnsupportedType strat
  | .bcdV => handleUnsupportedType strat

/-- The array loop of `internalDump`; `first` tells whether a separating
comma is due. -/
def dumpArrayElems (strat : Strategy) : List JSlice → Bool → Except String (List Nat)
  | [], _ => .ok []
  | e :: rest, first =>
    match internalDump strat e with
    | .error msg => .error msg
    | .ok x =>
      match dumpArrayElems strat rest false with
      | .error msg => .error msg
      | .ok y => .ok ((if first then [] else [44]) ++ x ++ y)

/-- The object loop of `internalDump`: key, colon, value. -/
def dumpObjectElems (strat : Strategy) : List (JSlice × JSlice) → Bool → Except String (List Nat)
  | [], _ => .ok []
  | (k, v) :: rest, first =>
    match internalDump strat k with
    | .error msg => .error msg
    | .ok kx =>
      match internalDump strat v with
      | .error msg => .error msg
      | .ok vx =>
        match dumpObjectElems strat rest false with
        | .error msg => .error msg
        | .ok y => .ok ((if first then [] else [44]) ++ kx ++ [58] ++ vx ++ y)

end

/-- The builder state reached by opening an array and adding two short
strings of 125 and 122 bytes: when it is closed, the builder sees
`n = 2` recorded entries at offsets 10 and 136, `_pos = 259`, and hence
`payload_bytes = 249` entry bytes after the 10-byte header. -/
def c1State : Except String BState :=
  (JasonBuilder.add .arrayOpen bEmpty).bind fun s1 =>
    (JasonBuilder.add (.str (List.replicate 125 97)) s1).bind fun s2 =>
      JasonBuilder.add (.str (List.replicate 122 98)) s2

/-! ## Theorems.  Everything below this point is a lemma or a claim
theorem; all definitions of the embedding appear above. -/

theorem memcmpO_swap : ∀ a b, memcmpO b a = (memcmpO a b).swap := by
  intro a
  induction a with
  | nil => intro b; cases b <;> simp [memcmpO, Ordering.swap]
  | cons x xs ih =>
    intro b
    cases b with
    | nil => simp [memcmpO, Ordering.swap]
    | cons y ys =>
      simp only [memcmpO]
      rcases Nat.lt_trichotomy x y with h | h | h
      · simp [h, Nat.lt_asymm h, Ordering.swap]
      · subst h
        simp [Nat.lt_irrefl, ih ys]
      · simp [h, Nat.lt_asymm h, Ordering.swap]

theorem memcmpO_eq_len_eq : ∀ a b, memcmpO a b = .eq → a.length = b.length → a = b := by
  intro a
  induction a with
  | nil => intro b _ hl; cases b <;> simp_all
  | cons x xs ih =>
    intro b hm hl
    cases b with
    | nil => simp at hl
    | cons y ys =>
      simp only [memcmpO] at hm
      split at hm
      · exact absurd hm (by simp)
      · split at hm
        · exact absurd hm (by simp)
        · have hxy : x = y := by omega
          subst hxy
          simp only [List.length_cons, Nat.add_right_cancel_iff] at hl
          rw [ih ys hm hl]

theorem keyLt_cons (x y : Nat) (xs ys : List Nat) :
    keyLt (x :: xs) (y :: ys) =
      if x < y then true else if y < x then false else keyLt xs ys := by
  simp only [keyLt, memcmpO, List.length_cons]
  rcases Nat.lt_trichotomy x y with h | h | h
  · simp [h, Nat.lt_asymm h]
  · subst h; simp
  · simp [h, Nat.lt_asymm h]

theorem keyLt_nil_left (b : List Nat) : keyLt [] b = decide (0 < b.length) := by
  cases b <;> simp [keyLt, memcmpO]

theorem keyLt_nil_right (a : List Nat) : keyLt a [] = false := by
  cases a <;> simp [keyLt, memcmpO]

theorem keyLt_asymm : ∀ a b, keyLt a b = true → keyLt b a = false := by
  intro a b h
  simp only [keyLt] at *
  rw [memcmpO_swap]
  rcases hm : memcmpO a b with _ | _ | _ <;> rw [hm] at h <;> simp [Ordering.swap] at *
  omega

theorem keyLt_connex : ∀ a b, keyLt a b = false → keyLt b a = false → a = b := by
  intro a b ha hb
  simp only [keyLt] at ha hb
  rw [memcmpO_swap] at hb
  rcases hm : memcmpO a b with _ | _ | _ <;> rw [hm] at ha hb <;>
    simp [Ordering.swap] at ha hb ⊢
  exact memcmpO_eq_len_eq a b hm (by omega)

theorem keyLt_trans : ∀ a b c, keyLt a b = true → keyLt b c = true → keyLt a c = true := by
  intro a
  induction a with
  | nil =>
    intro b c hab hbc
    cases c with
    | nil => rw [keyLt_nil_right] at hbc; exact absurd hbc (by simp)
    | cons z zs => simp [keyLt_nil_left]
  | cons x xs ih =>
    intro b c hab hbc
    cases b with
    | nil => rw [keyLt_nil_right] at hab; exact absurd hab (by simp)
    | cons y ys =>
      cases c with
      | nil => rw [keyLt_nil_right] at hbc; exact absurd hbc (by simp)
      | cons z zs =>
        rw [keyLt_cons] at hab hbc ⊢
        by_cases h1 : x < y
        · by_cases h2 : y < z
          · simp [show x < z by omega]
          · by_cases h3 : z < y
            · simp [h2, h3] at hbc
            · have hyz : y = z := by omega
              subst hyz
              simp [h1]
        · by_cases h4 : y < x
          · simp [h1, h4] at hab
          · have hxy : x = y := by omega
            subst hxy
            simp [Nat.lt_irrefl] at hab
            by_cases h2 : x < z
            · simp [h2]
            · by_cases h3 : z < x
              · simp [h2, h3] at hbc
              · have hxz : x = z := by omega
                subst hxz
                simp [Nat.lt_irrefl] at hbc ⊢
                exact ih ys zs hab hbc

/-- The non-strict key order (negation of the strict order with the
arguments flipped); this is the order in which `std::sort` leaves
adjacent elements. -/
theorem keyLt_le_trans : ∀ a b c : List Nat,
    keyLt b a = false → keyLt c b = false → keyLt c a = false := by
  intro a b c hba hcb
  by_contra hca
  rw [Bool.not_eq_false] at hca
  rcases hxy : keyLt b c with _ | _
  · have := keyLt_connex b c hxy hcb
    subst this
    simp_all
  · have := keyLt_trans b c a hxy hca
    simp_all


theorem length_readBytes (buf : List Nat) (s l : Nat) : (readBytes buf s l).length = l := by
  simp [readBytes]

theorem readBytes_zero (buf : List Nat) (s : Nat) : readBytes buf s 0 = [] := by
  simp [readBytes]

theorem memcmpO_nil_right (a : List Nat) : memcmpO a [] = .eq := by
  cases a <;> simp [memcmpO]

theorem findAttrName_short (buf : List Nat) (base : Nat)
    (h1 : 0x40 ≤ buf.getD base 0) (h2 : buf.getD base 0 ≤ 0xbf) :
    findAttrName buf base = some (base + 1, buf.getD base 0 - 0x40) := by
  unfold findAttrName
  rw [if_pos ⟨h1, h2⟩]

theorem cmpLarge_eq_keyLt (buf : List Nat) (tos a b : Nat) :
    cmpLarge buf tos a b = keyLt (keyAtD buf tos a) (keyAtD buf tos b) := by
  simp only [cmpLarge, keyAtD]
  cases hfa : findAttrName buf (tos + a) <;> cases hfb : findAttrName buf (tos + b) <;>
    simp only [Option.getD_some, Option.getD_none, readBytes_zero]
  · simp [keyLt, memcmpO]
  · simp [memcmpO, keyLt_nil_left, length_readBytes]
  · simp [memcmpO_nil_right, keyLt_nil_right]
  · cases hm : memcmpO (readBytes buf _ _) (readBytes buf _ _) <;>
      simp [keyLt, hm, length_readBytes]

theorem cmpShort_eq_keyLt (buf : List Nat) (tos a b : Nat) :
    cmpShort buf tos a b = keyLt (keyAtD buf tos a) (keyAtD buf tos b) := by
  simp only [cmpShort]
  split
  · next h =>
    obtain ⟨h1, h2, h3, h4⟩ := h
    have ka : keyAtD buf tos a = readBytes buf (tos + a + 1) (buf.getD (tos + a) 0 - 0x40) := by
      simp [keyAtD, findAttrName_short buf (tos + a) h1 h2]
    have kb : keyAtD buf tos b = readBytes buf (tos + b + 1) (buf.getD (tos + b) 0 - 0x40) := by
      simp [keyAtD, findAttrName_short buf (tos + b) h3 h4]
    rw [ka, kb]
    cases hm : memcmpO (readBytes buf (tos + a + 1) (buf.getD (tos + a) 0 - 0x40))
                       (readBytes buf (tos + b + 1) (buf.getD (tos + b) 0 - 0x40)) <;>
      (simp only [keyLt, hm, length_readBytes, decide_eq_decide]; try omega)
  · exact cmpLarge_eq_keyLt buf tos a b

/-! ### Buffer store/read helper lemmas -/

theorem getD_set_ne (l : List Nat) (i j v : Nat) (h : i ≠ j) :
    (l.set i v).getD j 0 = l.getD j 0 := by
  simp [List.getD_eq_getElem?_getD, List.getElem?_set_ne h]

theorem getD_set_self (l : List Nat) (i v : Nat) (h : i < l.length) :
    (l.set i v).getD i 0 = v := by
  simp [List.getD_eq_getElem?_getD, List.getElem?_set_eq_of_lt _ h]

theorem getD_append_left (l l' : List Nat) (i : Nat) (h : i < l.length) :
    (l ++ l').getD i 0 = l.getD i 0 := by
  simp [List.getD_eq_getElem?_getD, List.getElem?_append_left h]

theorem length_writeBytesAt : ∀ (bs : List Nat) (buf : List Nat) (p : Nat),
    (writeBytesAt buf p bs).length = buf.length := by
  intro bs
  induction bs with
  | nil => intro buf p; rfl
  | cons b bs ih => intro buf p; rw [writeBytesAt, ih, List.length_set]

theorem getD_writeBytesAt_lt : ∀ (bs : List Nat) (buf : List Nat) (p j : Nat), j < p →
    (writeBytesAt buf p bs).getD j 0 = buf.getD j 0 := by
  intro bs
  induction bs with
  | nil => intro buf p j _; rfl
  | cons b bs ih =>
    intro buf p j hj
    rw [writeBytesAt, ih _ _ _ (by omega), getD_set_ne _ _ _ _ (by omega)]

theorem length_writeTable2 : ∀ (idx : List Nat) (buf : List Nat) (base : Nat),
    (writeTable2 buf base idx).length = buf.length := by
  intro idx
  induction idx with
  | nil => intro buf base; rfl
  | cons x xs ih => intro buf base; rw [writeTable2, ih]; simp

theorem getD_writeTable2_lt : ∀ (idx : List Nat) (buf : List Nat) (base j : Nat), j < base →
    (writeTable2 buf base idx).getD j 0 = buf.getD j 0 := by
  intro idx
  induction idx with
  | nil => intro buf base j _; rfl
  | cons x xs ih =>
    intro buf base j hj
    rw [writeTable2, ih _ _ _ (by omega), getD_set_ne _ _ _ _ (by omega),
      getD_set_ne _ _ _ _ (by omega)]

theorem length_writeTable8 : ∀ (idx : List Nat) (buf : List Nat) (base : Nat),
    (writeTable8 buf base idx).length = buf.length := by
  intro idx
  induction idx with
  | nil => intro buf base; rfl
  | cons x xs ih => intro buf base; rw [writeTable8, ih, length_writeBytesAt]

theorem getD_writeTable8_lt : ∀ (idx : List Nat) (buf : List Nat) (base j : Nat), j < base →
    (writeTable8 buf base idx).getD j 0 = buf.getD j 0 := by
  intro idx
  induction idx with
  | nil => intro buf base j _; rfl
  | cons x xs ih =>
    intro buf base j hj
    rw [writeTable8, ih _ _ _ (by omega), getD_writeBytesAt_lt _ _ _ _ (by omega)]

/-! ### Sortedness of the object index (claim C2) -/

theorem sortLeShort_trans (buf : List Nat) (tos : Nat) (a b c : Nat)
    (hab : (! cmpShort buf tos b a) = true) (hbc : (! cmpShort buf tos c b) = true) :
    (! cmpShort buf tos c a) = true := by
  rw [Bool.not_eq_true', cmpShort_eq_keyLt] at *
  exact keyLt_le_trans _ _ _ hab hbc

theorem sortLeShort_total (buf : List Nat) (tos : Nat) (a b : Nat) :
    ((! cmpShort buf tos b a) || (! cmpShort buf tos a b)) = true := by
  rcases hx : cmpShort buf tos b a with _ | _
  · simp [hx]
  · rw [cmpShort_eq_keyLt] at hx
    have := keyLt_asymm _ _ hx
    simp [cmpShort_eq_keyLt, this]

theorem sortLeLarge_trans (buf : List Nat) (tos : Nat) (a b c : Nat)
    (hab : (! cmpLarge buf tos b a) = true) (hbc : (! cmpLarge buf tos c b) = true) :
    (! cmpLarge buf tos c a) = true := by
  rw [Bool.not_eq_true', cmpLarge_eq_keyLt] at *
  exact keyLt_le_trans _ _ _ hab hbc

theorem sortLeLarge_total (buf : List Nat) (tos : Nat) (a b : Nat) :
    ((! cmpLarge buf tos b a) || (! cmpLarge buf tos a b)) = true := by
  rcases hx : cmpLarge buf tos b a with _ | _
  · simp [hx]
  · rw [cmpLarge_eq_keyLt] at hx
    have := keyLt_asymm _ _ hx
    simp [cmpLarge_eq_keyLt, this]

/-- C2: with `sortAttributeNames` enabled, the index table `close()`
produces for an object with at least 2 entries (built by
`sortObjectIndexShort` in the small-table case and `sortObjectIndexLong`
in the large-table case) is sorted by the UTF-8 bytes of the keys: for
every adjacent pair of table positions, the key at the first position is
byte-wise smaller than the key at the second (with, on an equal common
prefix, the shorter key ordered first) or the two keys are equal. -/
theorem objectIndex_sorted (buf : List Nat) (tos : Nat) (offsets : List Nat) :
    List.Chain' (fun a b => keyLt (keyAtD buf tos a) (keyAtD buf tos b) = true ∨
      keyAtD buf tos a = keyAtD buf tos b) (sortObjectIndexShort buf tos offsets) ∧
    List.Chain' (fun a b => keyLt (keyAtD buf tos a) (keyAtD buf tos b) = true ∨
      keyAtD buf tos a = keyAtD buf tos b) (sortObjectIndexLong buf tos offsets) := by
  constructor
  · have hp := List.sorted_mergeSort
      (fun a b c hab hbc => sortLeShort_trans buf tos a b c hab hbc)
      (fun a b => sortLeShort_total buf tos a b) offsets
    refine List.Pairwise.chain' (List.Pairwise.imp ?_ hp)
    intro a b hab
    rw [Bool.not_eq_true', cmpShort_eq_keyLt] at hab
    rcases h2 : keyLt (keyAtD buf tos a) (keyAtD buf tos b) with _ | _
    · exact Or.inr (keyLt_connex _ _ h2 hab)
    · exact Or.inl rfl
  · have hp := List.sorted_mergeSort
      (fun a b c hab hbc => sortLeLarge_trans buf tos a b c hab hbc)
      (fun a b => sortLeLarge_total buf tos a b) offsets
    refine List.Pairwise.chain' (List.Pairwise.imp ?_ hp)
    intro a b hab
    rw [Bool.not_eq_true', cmpLarge_eq_keyLt] at hab
    rcases h2 : keyLt (keyAtD buf tos a) (keyAtD buf tos b) with _ | _
    · exact Or.inr (keyLt_connex _ _ h2 hab)
    · exact Or.inl rfl

/-! ### The attribute-uniqueness check (claim C3) -/

theorem checkAULoop_adjacent : ∀ (rest : List (JVal × JVal)) (p : List Nat),
    (∀ e ∈ rest, ∃ s, e.1 = JVal.str s) →
    hasAdjDup (p :: rest.map fun e => getStringD e.1) = true →
    checkAULoop p rest = true := by
  intro rest
  induction rest with
  | nil => intro p _ hadj; simp [hasAdjDup] at hadj
  | cons e rest ih =>
    intro p hkeys hadj
    obtain ⟨q, hq⟩ := hkeys e (List.mem_cons_self e rest)
    obtain ⟨k, v⟩ := e
    simp only at hq
    subst hq
    simp only [List.map_cons, getStringD, hasAdjDup, Bool.or_eq_true, decide_eq_true_eq] at hadj
    rw [checkAULoop]
    rcases hadj with hpq | hadj
    · rw [if_pos hpq]
    · by_cases hpq : p = q
      · rw [if_pos hpq]
      · rw [if_neg hpq]
        have := ih q (fun x hx => hkeys x (List.mem_cons_of_mem _ hx)) hadj
        simp [this]

/-- C3 counterexample: an object whose first and third keys are the
identical string `"x"` (`[120]`) while adjacent keys differ; the
uniqueness check compares only neighbouring index-table entries, so it
reports no duplicate and `close()` does not throw. -/
theorem checkAU_misses_nonadjacent_duplicate :
    (([(JVal.str [120], JVal.other), (JVal.str [121], JVal.other),
        (JVal.str [120], JVal.other)].map fun e => getStringD e.1) =
      [[120], [121], [120]]) ∧
    checkAU (JVal.obj [(JVal.str [120], JVal.other), (JVal.str [121], JVal.other),
      (JVal.str [120], JVal.other)]) = false := by
  constructor
  · rfl
  · rfl

/-- C3 (amended): with `checkAttributeUniqueness` enabled, the check run
by `close()` throws `DuplicateAttribute` whenever two entries that are
*adjacent* in the object's index table have identical string keys (in
particular, with `sortAttributeNames` also enabled any duplicate pair
becomes adjacent); the recursion into nested object values covers the
values at table positions 1 and later. -/
theorem checkAU_adjacent_duplicate (entries : List (JVal × JVal))
    (hkeys : ∀ e ∈ entries, ∃ s, e.1 = JVal.str s)
    (hadj : hasAdjDup (entries.map fun e => getStringD e.1) = true) :
    checkAU (JVal.obj entries) = true := by
  cases entries with
  | nil => simp [hasAdjDup] at hadj
  | cons e rest =>
    rw [checkAU]
    exact checkAULoop_adjacent rest (getStringD e.1)
      (fun x hx => hkeys x (List.mem_cons_of_mem _ hx)) hadj

theorem checkAU_adjacent_duplicate_witness :
    (∀ e ∈ [(JVal.str [97], JVal.other), (JVal.str [97], JVal.other)], ∃ s, e.1 = JVal.str s) ∧
    hasAdjDup ([(JVal.str [97], JVal.other), (JVal.str [97], JVal.other)].map
      fun e => getStringD e.1) = true ∧
    checkAU (JVal.obj [(JVal.str [97], JVal.other), (JVal.str [97], JVal.other)]) = true := by
  have hk : ∀ e ∈ [(JVal.str [97], JVal.other), (JVal.str [97], JVal.other)],
      ∃ s, e.1 = JVal.str s := by
    intro e he
    simp only [List.mem_cons, List.not_mem_nil, or_false] at he
    rcases he with rfl | rfl
    · exact ⟨[97], rfl⟩
    · exact ⟨[97], rfl⟩
  exact ⟨hk, by rfl, checkAU_adjacent_duplicate _ hk (by rfl)⟩

/-! ### Sealing the empty containers (claim C5) -/

/-- C5: closing an empty object opened with `add(Object)` yields exactly
the two bytes `[0x07, 0x02]` (the zero count byte written at `_pos - 1`
for `n = 0` lands on `tos + 1` and is then overwritten by the byte
length 2), and closing an empty array yields `[0x05, 0x02]`. -/
theorem close_empty_compound_bytes :
    (JasonBuilder.add .objectOpen bEmpty).bind
        (JasonBuilder.close ⟨true, false⟩) =
      .ok (⟨[0x07, 0x02], [], [[]], false⟩, true, true) ∧
    (JasonBuilder.add .arrayOpen bEmpty).bind
        (JasonBuilder.close ⟨true, false⟩) =
      .ok (⟨[0x05, 0x02], [], [[]], false⟩, true, true) := by
  constructor
  · rfl
  · rfl

/-! ### The SmallInt emission (claim C7) -/

/-- C7: for `Int64`-carried values the SmallInt case of `set` behaves as
claimed — it throws `NumberOutOfRange` exactly outside `[-8..7]`, and in
range emits the byte `0x30 + v` (`v ≥ 0`) or `0x38 + (v + 8)` (`v < 0`).
For a `UInt64`-carried value, however, the source's missing `break`
makes the case fall through into the `default:` arm, so even the
in-range value 5 throws "Must give number for JasonType::SmallInt."
instead of emitting `0x35`. -/
theorem setSmallInt_spec :
    (∀ v : Int, -8 ≤ v → v ≤ 7 → 0 ≤ v →
      setSmallInt (.int64 v) = .ok [0x30 + v.toNat]) ∧
    (∀ v : Int, -8 ≤ v → v < 0 →
      setSmallInt (.int64 v) = .ok [0x38 + (v + 8).toNat]) ∧
    (∀ v : Int, (v < -8 ∨ 7 < v) →
      setSmallInt (.int64 v) = .error "Number out of range of JasonType::SmallInt.") ∧
    setSmallInt (.uint64 5) = .error "Must give number for JasonType::SmallInt." := by
  refine ⟨?_, ?_, ?_, rfl⟩
  · intro v h1 h2 h3
    rw [setSmallInt, if_neg (by omega), if_pos h3]
    have htn : (v + 0x30).toNat = 0x30 + v.toNat := by omega
    rw [htn]
  · intro v h1 h2
    rw [setSmallInt, if_neg (by omega), if_neg (by omega)]
    have htn : (v + 8 + 0x38).toNat = 0x38 + (v + 8).toNat := by omega
    rw [htn]
  · intro v h
    rw [setSmallInt, if_pos h]

theorem setSmallInt_spec_witness :
    setSmallInt (.int64 5) = .ok [0x35] ∧
    setSmallInt (.int64 (-3)) = .ok [0x3d] ∧
    setSmallInt (.int64 9) = .error "Number out of range of JasonType::SmallInt." :=
  ⟨setSmallInt_spec.1 5 (by decide) (by decide) (by decide),
   setSmallInt_spec.2.1 (-3) (by decide) (by decide),
   setSmallInt_spec.2.2.1 9 (Or.inr (by decide))⟩

/-! ### `slice()` and `size()` (claim C8) -/

/-- C8 counterexample: on a builder with one open container (an array
just opened — `stack = [0]`), `slice()` succeeds, returning a view of
the buffer, instead of failing as the claim states. -/
theorem slice_ok_with_open_container :
    (JasonBuilder.set .arrayOpen bEmpty).stack = [0] ∧
    JasonBuilder.slice (JasonBuilder.set .arrayOpen bEmpty) =
      .ok [0x05, 0, 0, 0, 0, 0, 0, 0, 0, 0] := by
  constructor
  · rfl
  · rfl

/-- C8 (amended): `size()` requires the empty stack — it throws the
WrongContext error ("Jason object not sealed.") whenever a container is
open and returns the byte length `_pos` once the stack is empty — while
`slice()` performs no such check: it returns a slice over the buffer
start unconditionally. -/
theorem slice_size_stack (st : BState) :
    JasonBuilder.slice st = .ok st.buf ∧
    (st.stack ≠ [] → JasonBuilder.size st = .error "Jason object not sealed.") ∧
    (st.stack = [] → JasonBuilder.size st = .ok st.buf.length) := by
  refine ⟨rfl, ?_, ?_⟩
  · intro h
    rw [JasonBuilder.size, if_neg (by simpa [List.isEmpty_iff] using h)]
  · intro h
    rw [JasonBuilder.size, if_pos (by simpa [List.isEmpty_iff] using h)]

theorem slice_size_stack_witness :
    ((JasonBuilder.set .arrayOpen bEmpty).stack ≠ [] ∧
      JasonBuilder.size (JasonBuilder.set .arrayOpen bEmpty) =
        .error "Jason object not sealed.") ∧
    (bEmpty.stack = [] ∧ JasonBuilder.size bEmpty = .ok 0) :=
  ⟨⟨by decide, (slice_size_stack (JasonBuilder.set .arrayOpen bEmpty)).2.1 (by decide)⟩,
   ⟨rfl, (slice_size_stack bEmpty).2.2 rfl⟩⟩

/-! ### Stray bytes in `dumpString` (claim C10) -/

theorem maskIff : ∀ c : Nat, c < 256 →
    ((c &&& 0x80 = 0) ↔ c < 0x80) ∧ ((c &&& 0xe0 = 0xc0) ↔ (0xc0 ≤ c ∧ c ≤ 0xdf)) ∧
    ((c &&& 0xf0 = 0xe0) ↔ (0xe0 ≤ c ∧ c ≤ 0xef)) ∧
    ((c &&& 0xf8 = 0xf0) ↔ (0xf0 ≤ c ∧ c ≤ 0xf7)) := by decide

theorem dumpStray_masks : ∀ c : Nat, c < 256 → ((0x80 ≤ c ∧ c ≤ 0xbf) ∨ 0xf8 ≤ c) →
    ¬ (c &&& 0x80 = 0) ∧ ¬ (c &&& 0xe0 = 0xc0) ∧ ¬ (c &&& 0xf0 = 0xe0) ∧
      ¬ (c &&& 0xf8 = 0xf0) := by decide

/-- C10: a byte that is neither ASCII nor one of the three accepted
UTF-8 lead patterns — a continuation byte `0x80..0xbf` or a byte
`0xf8..0xff` — matches no branch of `dumpString`; nothing is emitted for
it and the loop advances past it, silently dropping it from the JSON
output. -/
theorem dumpString_drops_stray_byte (c : Nat) (rest : List Nat)
    (h : (0x80 ≤ c ∧ c ≤ 0xbf) ∨ (0xf8 ≤ c ∧ c ≤ 0xff)) :
    dumpString (c :: rest) = dumpString rest := by
  have hb := dumpStray_masks c (by omega) (by omega)
  rw [dumpString, if_neg hb.1, if_neg hb.2.1, if_neg hb.2.2.1, if_neg hb.2.2.2]

theorem dumpString_drops_stray_byte_witness :
    ((0x80 ≤ 0x80 ∧ 0x80 ≤ 0xbf) ∨ (0xf8 ≤ (0x80 : Nat) ∧ 0x80 ≤ 0xff)) ∧
    dumpString [0x80, 65] = dumpString [65] ∧ dumpString [65] = some [65] :=
  ⟨Or.inl (by decide), dumpString_drops_stray_byte 0x80 [65] (Or.inl (by decide)),
   by simp (disch := decide) [dumpString, maskIff, escFull, escapeTable]⟩

/-! ### Integer width minimality (claim C6) -/

theorem byteCount_pos (v : Nat) : 1 ≤ byteCount v := by
  rw [byteCount]
  split <;> omega

theorem byteCount_bounds : ∀ v : Nat, 1 ≤ v →
    256 ^ (byteCount v - 1) ≤ v ∧ v < 256 ^ byteCount v := by
  intro v
  induction v using Nat.strong_induction_on with
  | _ v ih =>
    intro hv
    rw [byteCount]
    split
    · next h => simpa using ⟨hv, by omega⟩
    · next h =>
      push_neg at h
      have hd : v / 256 < v := Nat.div_lt_self (by omega) (by omega)
      have hd1 : 1 ≤ v / 256 := (Nat.one_le_div_iff (by omega)).mpr (by omega)
      obtain ⟨l, u⟩ := ih (v / 256) hd hd1
      have hp : 1 ≤ byteCount (v / 256) := byteCount_pos _
      constructor
      · have e1 : byteCount (v / 256) + 1 - 1 = byteCount (v / 256) := by omega
        rw [e1, ← Nat.sub_add_cancel hp, pow_succ]
        have h1 := Nat.mul_le_mul_right 256 l
        have h2 := Nat.div_mul_le_self v 256
        omega
      · rw [pow_succ]
        exact (Nat.div_lt_iff_lt_mul (by omega)).mp u

theorem uintLength_bounds (v : Nat) (hv : 1 ≤ v) :
    256 ^ (uintLength v - 1) ≤ v ∧ v < 256 ^ uintLength v := by
  rw [uintLength]
  split
  · next h => simpa using ⟨hv, by omega⟩
  · next h => exact byteCount_bounds v hv

theorem uintLength_pos (v : Nat) : 1 ≤ uintLength v := by
  rw [uintLength]
  split
  · omega
  · exact byteCount_pos v

theorem uintLength_eq_log (v : Nat) (hv : 0xff < v) :
    uintLength v = Nat.log 256 v + 1 := by
  have hb := uintLength_bounds v (by omega)
  have hp := uintLength_pos v
  have hlog := Nat.log_eq_of_pow_le_of_lt_pow hb.1
    (by rw [Nat.sub_add_cancel hp]; exact hb.2)
  omega

theorem uintLength_eq_clog (v : Nat) (hv : 1 ≤ v) :
    uintLength v = Nat.clog 256 (v + 1) := by
  obtain ⟨l, u⟩ := uintLength_bounds v hv
  have hp := uintLength_pos v
  have h1 : uintLength v ≤ Nat.clog 256 (v + 1) := by
    have hx : 256 ^ (uintLength v - 1) < v + 1 := by omega
    have := (Nat.pow_lt_iff_lt_clog (by omega)).mp hx
    omega
  have h2 : Nat.clog 256 (v + 1) ≤ uintLength v :=
    (Nat.le_pow_iff_clog_le (by omega)).mp (by omega)
  omega

/-- C6: `uintLength` returns 1 for every value up to `0xff` and otherwise
the number of base-256 digits of the value (`Nat.log 256 v + 1`);
`appendUInt` emits one tag byte plus exactly `uintLength v` payload
bytes, and for every `v ≥ 8` that width equals `⌈log₂₅₆ (v + 1)⌉`. -/
theorem uintLength_width :
    (∀ v : Nat, v ≤ 0xff → uintLength v = 1) ∧
    (∀ v : Nat, 0xff < v → uintLength v = Nat.log 256 v + 1) ∧
    (∀ (v base : Nat) (buf : List Nat),
      (appendUInt v base buf).length = buf.length + 1 + uintLength v) ∧
    (∀ v : Nat, 8 ≤ v → uintLength v = Nat.clog 256 (v + 1)) := by
  refine ⟨?_, uintLength_eq_log, ?_, ?_⟩
  · intro v h
    rw [uintLength, if_pos h]
  · intro v base buf
    simp [appendUInt, leBytes]
    omega
  · intro v h
    exact uintLength_eq_clog v (by omega)

theorem uintLength_width_witness :
    uintLength 0x12 = 1 ∧
    uintLength 0x1234 = Nat.log 256 0x1234 + 1 ∧
    (appendUInt 0x1234 0x27 []).length = 0 + 1 + uintLength 0x1234 ∧
    uintLength 0x1234 = Nat.clog 256 0x1235 :=
  ⟨uintLength_width.1 0x12 (by decide),
   uintLength_width.2.1 0x1234 (by decide),
   uintLength_width.2.2.1 0x1234 0x27 [],
   uintLength_width.2.2.2 0x1234 (by decide)⟩

/-! ### Unsupported types in the dumper (claim C9) -/

/-- C9 counterexample: dumping the array `[null, UTCDate, true]` under
the Suppress strategy emits nothing at all for the unsupported element —
the output is `[null,,true]` (bytes below), not `[null,null,true]` as
the claim's "emit null at non-skippable positions" requires. -/
theorem suppress_emits_nothing_in_array :
    internalDump .suppress (.arrV [.nullV, .utcDateV, .boolV true]) =
      .ok [91, 110, 117, 108, 108, 44, 44, 116, 114, 117, 101, 93] ∧
    (Except.ok [91, 110, 117, 108, 108, 44, 44, 116, 114, 117, 101, 93] :
        Except String (List Nat)) ≠
      .ok [91, 110, 117, 108, 108, 44, 110, 117, 108, 108, 44, 116, 114, 117, 101, 93] := by
  refine ⟨rfl, ?_⟩
  intro h
  simp at h

/-- C9 (amended): for every slice of a kind without JSON meaning
(`None, ID, ArangoDB_id, UTCDate, Binary, BCD`), the dumper under the
Fail strategy raises `UnsupportedType`; under the Suppress strategy it
always emits nothing for the value — also at array-element positions,
where no `null` is substituted (dumping `[null, s, true]` yields
`[null,,true]`). -/
theorem unsupported_type_strategies (s : JSlice) (h : s.isUnsupported = true) :
    internalDump .fail s = .error "unsupported type - cannot convert to JSON" ∧
    internalDump .suppress s = .ok [] ∧
    internalDump .suppress (.arrV [.nullV, s, .boolV true]) =
      .ok [91, 110, 117, 108, 108, 44, 44, 116, 114, 117, 101, 93] := by
  cases s <;> first
    | exact ⟨rfl, rfl, rfl⟩
    | simp [JSlice.isUnsupported] at h

theorem unsupported_type_strategies_witness :
    JSlice.isUnsupported .utcDateV = true ∧
    internalDump .fail .utcDateV = .error "unsupported type - cannot convert to JSON" ∧
    internalDump .suppress .utcDateV = .ok [] :=
  ⟨rfl, (unsupported_type_strategies .utcDateV rfl).1,
   (unsupported_type_strategies .utcDateV rfl).2.1⟩

/-! ### The escaping behaviour of `dumpString` (claim C4) -/

/-- C4 counterexample: the forward slash `0x2f` lies outside the claimed
escape set (it is not a control byte, not the double quote, not the
backslash), yet `dumpString` emits `\\/` (bytes `[92, 47]`) for it
instead of copying it verbatim. -/
theorem dumpString_escapes_slash :
    dumpString [47] = some [92, 47] ∧
    ¬ (47 < 0x20) ∧ (47 : Nat) ≠ 0x22 ∧ (47 : Nat) ≠ 0x5c ∧
    (some [92, 47] : Option (List Nat)) ≠ some [47] := by
  refine ⟨?_, by decide, by decide, by decide, by decide⟩
  simp (disch := decide) [dumpString, maskIff, escFull, escapeTable]

theorem dumpString_chunks_fuel : ∀ (fuel : Nat) (s : List Nat) (cs : List (List Nat)),
    s.length ≤ fuel → utf8Chunks s = some cs →
    dumpString s = some ((cs.map renderChunk).flatten) := by
  intro fuel
  induction fuel with
  | zero =>
    intro s cs hl hc
    cases s with
    | nil =>
      rw [utf8Chunks] at hc
      injection hc with hc
      subst hc
      rw [dumpString]
      rfl
    | cons c rest => simp at hl
  | succ n ih =>
    intro s cs hl hc
    cases s with
    | nil =>
      rw [utf8Chunks] at hc
      injection hc with hc
      subst hc
      rw [dumpString]
      rfl
    | cons c rest =>
      simp only [List.length_cons] at hl
      rw [utf8Chunks] at hc
      rw [dumpString]
      by_cases h1 : c &&& 0x80 = 0
      · rw [if_pos h1] at hc ⊢
        rw [Option.map_eq_some'] at hc
        obtain ⟨cs0, hcs0, rfl⟩ := hc
        rw [ih rest cs0 (by omega) hcs0]
        simp [renderChunk]
      · rw [if_neg h1] at hc ⊢
        by_cases h2 : c &&& 0xe0 = 0xc0
        · rw [if_pos h2] at hc ⊢
          by_cases h3 : rest.length < 1 ∨ ¬ (rest.take 1).all isCont
          · rw [if_pos h3] at hc
            exact absurd hc (by simp)
          · rw [if_neg h3] at hc
            push_neg at h3
            rw [if_neg (show ¬ rest.length < 1 by omega)]
            rw [Option.map_eq_some'] at hc
            obtain ⟨cs0, hcs0, rfl⟩ := hc
            cases rest with
            | nil => simp at h3
            | cons d r2 =>
              simp only [List.take_succ_cons, List.take_zero, List.drop_succ_cons,
                List.drop_zero] at hcs0 ⊢
              rw [ih r2 cs0 (by simp at hl; omega) hcs0]
              simp [renderChunk]
        · rw [if_neg h2] at hc ⊢
          by_cases h4 : c &&& 0xf0 = 0xe0
          · rw [if_pos h4] at hc ⊢
            by_cases h5 : rest.length < 2 ∨ ¬ (rest.take 2).all isCont
            · rw [if_pos h5] at hc
              exact absurd hc (by simp)
            · rw [if_neg h5] at hc
              push_neg at h5
              rw [if_neg (show ¬ rest.length < 2 by omega)]
              rw [Option.map_eq_some'] at hc
              obtain ⟨cs0, hcs0, rfl⟩ := hc
              cases rest with
              | nil => simp at h5
              | cons d r2 =>
                cases r2 with
                | nil => simp at h5
                | cons e r3 =>
                  simp only [List.take_succ_cons, List.take_zero, List.drop_succ_cons,
                    List.drop_zero] at hcs0 ⊢
                  rw [ih r3 cs0 (by simp at hl; omega) hcs0]
                  simp [renderChunk]
          · rw [if_neg h4] at hc ⊢
            by_cases h6 : c &&& 0xf8 = 0xf0
            · rw [if_pos h6] at hc ⊢
              by_cases h7 : rest.length < 3 ∨ ¬ (rest.take 3).all isCont
              · rw [if_pos h7] at hc
                exact absurd hc (by simp)
              · rw [if_neg h7] at hc
                push_neg at h7
                rw [if_neg (show ¬ rest.length < 3 by omega)]
                rw [Option.map_eq_some'] at hc
                obtain ⟨cs0, hcs0, rfl⟩ := hc
                cases rest with
                | nil => simp at h7
                | cons d r2 =>
                  cases r2 with
                  | nil => simp at h7
                  | cons e r3 =>
                    cases r3 with
                    | nil => simp at h7
                    | cons f r4 =>
                      simp only [List.take_succ_cons, List.take_zero, List.drop_succ_cons,
                        List.drop_zero] at hcs0 ⊢
                      rw [ih r4 cs0 (by simp at hl; omega) hcs0]
                      simp [renderChunk]
            · rw [if_neg h6] at hc
              exact absurd hc (by simp)

/-- C4 (amended): for every string that decomposes into UTF-8 units
(which every valid UTF-8 string does), `dumpString` emits, unit by unit:
for an ASCII byte its `escFull` image — the byte itself unless it is a
control byte `0x00..0x1f` (escaped as `\\b \\t \\n \\f \\r` or
`\\u00XX`), the double quote, the backslash **or the forward slash**,
which are escaped — and every multi-byte UTF-8 sequence verbatim. -/
theorem dumpString_escape_spec (s : List Nat) (cs : List (List Nat))
    (hc : utf8Chunks s = some cs) :
    dumpString s = some ((cs.map renderChunk).flatten) :=
  dumpString_chunks_fuel s.length s cs le_rfl hc

theorem dumpString_escape_spec_witness :
    utf8Chunks [97, 47, 10, 0xc3, 0xa9] = some [[97], [47], [10], [0xc3, 0xa9]] ∧
    dumpString [97, 47, 10, 0xc3, 0xa9] =
      some (([[97], [47], [10], [0xc3, 0xa9]].map renderChunk).flatten) ∧
    (([[97], [47], [10], [0xc3, 0xa9]].map renderChunk).flatten) =
      [97, 92, 47, 92, 110, 0xc3, 0xa9] := by
  have hch : utf8Chunks [97, 47, 10, 0xc3, 0xa9] = some [[97], [47], [10], [0xc3, 0xa9]] := by
    simp (disch := decide) [utf8Chunks, maskIff, isCont]
  refine ⟨hch, dumpString_escape_spec _ _ hch, ?_⟩
  simp [renderChunk, escFull, escapeTable, hexChar]


/-! ### The small/large representation choice of `close()` (claim C1) -/

theorem getD_buf2ext (buf ext : List Nat) (tos : Nat) (h : tos < buf.length) :
    (buf ++ ext).getD tos 0 = buf.getD tos 0 :=
  getD_append_left buf ext tos h

theorem length_closeTableSmall (opts : JasonOptions) (tos : Nat) (buf idx : List Nat) :
    (closeTableSmall opts tos buf idx).length =
      buf.length + (if idx.length ≠ 0 then 2 * idx.length + 1 else 0) := by
  simp only [closeTableSmall]
  split <;> split <;> simp [length_writeTable2]

theorem length_closeTableLarge (opts : JasonOptions) (tos : Nat) (buf idx : List Nat) :
    (closeTableLarge opts tos buf idx).length = buf.length + (8 * idx.length + 8) := by
  simp only [closeTableLarge]
  split <;> simp [length_writeTable8, length_writeBytesAt]

theorem getD_closeTableSmall_tos (opts : JasonOptions) (tos : Nat) (buf idx : List Nat)
    (h : tos + 2 ≤ buf.length) :
    (closeTableSmall opts tos buf idx).getD tos 0 =
      (if buf.getD tos 0 % 2 = 0 then buf.getD tos 0 - 1 else buf.getD tos 0) := by
  simp only [closeTableSmall]
  set buf2 := if idx.length ≠ 0 then buf ++ List.replicate (2 * idx.length + 1) 0 else buf
    with hbuf2d
  have hb2get : buf2.getD tos 0 = buf.getD tos 0 := by
    rw [hbuf2d]
    split
    · exact getD_append_left _ _ _ (by omega)
    · rfl
  have hb2len : buf.length ≤ buf2.length := by
    rw [hbuf2d]
    split
    · simp
    · exact le_rfl
  rw [hb2get]
  set buf3 := if buf.getD tos 0 % 2 = 0 then buf2.set tos (buf.getD tos 0 - 1) else buf2
    with hbuf3d
  have hb3len : buf3.length = buf2.length := by
    rw [hbuf3d]
    split <;> simp
  have hb3get : buf3.getD tos 0 =
      (if buf.getD tos 0 % 2 = 0 then buf.getD tos 0 - 1 else buf.getD tos 0) := by
    rw [hbuf3d]
    split
    · exact getD_set_self _ _ _ (by omega)
    · exact hb2get
  rw [getD_set_ne _ _ _ _ (by rw [length_writeTable2]; omega),
    getD_writeTable2_lt _ _ _ _ (by omega)]
  exact hb3get

theorem getD_closeTableLarge_tos (opts : JasonOptions) (tos : Nat) (buf idx : List Nat)
    (h : tos + 2 ≤ buf.length) :
    (closeTableLarge opts tos buf idx).getD tos 0 =
      (if buf.getD tos 0 % 2 = 1 then buf.getD tos 0 + 1 else buf.getD tos 0) := by
  simp only [closeTableLarge]
  have hb2get : (buf ++ List.replicate (8 * idx.length + 8) 0).getD tos 0 = buf.getD tos 0 :=
    getD_append_left _ _ _ (by omega)
  have hb2len : buf.length + (8 * idx.length + 8) =
      (buf ++ List.replicate (8 * idx.length + 8) 0).length := by simp
  rw [hb2get]
  set buf2 := buf ++ List.replicate (8 * idx.length + 8) 0 with hbuf2d
  set buf3 := if buf.getD tos 0 % 2 = 1 then buf2.set tos (buf.getD tos 0 + 1) else buf2
    with hbuf3d
  have hb3len : buf3.length = buf2.length := by
    rw [hbuf3d]
    split <;> simp
  have hb3get : buf3.getD tos 0 =
      (if buf.getD tos 0 % 2 = 1 then buf.getD tos 0 + 1 else buf.getD tos 0) := by
    rw [hbuf3d]
    split
    · exact getD_set_self _ _ _ (by omega)
    · exact hb2get
  rw [getD_writeTable8_lt _ _ _ _ (by omega),
    getD_writeBytesAt_lt _ _ _ _ (by rw [hb3len]; omega)]
  exact hb3get

theorem getD_writeByteLength_tos (sbl : Bool) (tos : Nat) (buf : List Nat) :
    (writeByteLength sbl tos buf).getD tos 0 = buf.getD tos 0 := by
  simp only [writeByteLength]
  split
  · exact getD_set_ne _ _ _ _ (by omega)
  · rw [getD_writeBytesAt_lt _ _ _ _ (by omega), getD_set_ne _ _ _ _ (by omega)]

theorem getD_writeByteLength_small (tos : Nat) (buf : List Nat) (h : tos + 2 ≤ buf.length) :
    (writeByteLength true tos buf).getD (tos + 1) 0 = (buf.length - tos) % 256 := by
  simp only [writeByteLength, if_pos]
  exact getD_set_self _ _ _ (by omega)

theorem getD_writeByteLength_large (tos : Nat) (buf : List Nat) (h : tos + 2 ≤ buf.length) :
    (writeByteLength false tos buf).getD (tos + 1) 0 = 0 := by
  simp only [writeByteLength]
  rw [if_neg (by decide), getD_writeBytesAt_lt _ _ _ _ (by omega)]
  exact getD_set_self _ _ _ (by omega)

theorem take_drop_small_facts (buf : List Nat) (tos : Nat) (hpos : tos + 10 ≤ buf.length) :
    (buf.take (tos + 2) ++ buf.drop (tos + 10)).getD tos 0 = buf.getD tos 0 ∧
    (buf.take (tos + 2) ++ buf.drop (tos + 10)).length = buf.length - 8 := by
  constructor
  · rw [getD_append_left _ _ _ (by simp [List.length_take]; omega)]
    simp [List.getD_eq_getElem?_getD, List.getElem?_take, (by omega : tos < tos + 2)]
  · simp [List.length_take, List.length_drop]
    omega

/-- C1 (amended): on sealing a compound value with `n` recorded entries
and `payload_bytes` bytes of entries (the bytes between the 10-byte
header and `_pos`), the builder chooses the small representation
(one-byte byte length, 2-byte index-table offsets, small tag form) iff
`n < 256 ∧ payload_bytes + 3 + 2n < 256` — i.e. iff the total
small-form byte length `1 + 1 + payload + 2n + 1` fits in one byte (the
spec's `payload_bytes + 1 + 2n` omits the tag and byte-length bytes);
otherwise it uses the large byte length (a zero at `tos + 1` and an
8-byte length) and sets
`smallTable = (n < 256 ∧ (n = 0 ∨ last recorded offset < 0x10000))`,
with the tag's small/large form following `smallTable`. -/
theorem close_variant_choice (opts : JasonOptions) (st : BState) (tos : Nat)
    (stackRest : List Nat) (n payload : Nat)
    (hstack : st.stack = tos :: stackRest)
    (hn : n = (st.index.getD stackRest.length []).length)
    (hpay : payload = st.buf.length - (tos + 10))
    (htag1 : 0x05 ≤ st.buf.getD tos 0) (htag2 : st.buf.getD tos 0 ≤ 0x08)
    (hpos : tos + 10 ≤ st.buf.length) :
    ∃ st2 : BState,
      JasonBuilder.close opts st = .ok (st2,
        decide (n < 0x100 ∧ payload + 3 + 2 * n < 0x100),
        (decide (n < 0x100 ∧ payload + 3 + 2 * n < 0x100) ||
          decide (n < 0x100 ∧ (n = 0 ∨
            (st.index.getD stackRest.length []).getLastD 0 < 0x10000)))) ∧
      st2.buf.getD tos 0 =
        (if (decide (n < 0x100 ∧ payload + 3 + 2 * n < 0x100) ||
            decide (n < 0x100 ∧ (n = 0 ∨
              (st.index.getD stackRest.length []).getLastD 0 < 0x10000))) = true
         then (if st.buf.getD tos 0 % 2 = 0 then st.buf.getD tos 0 - 1 else st.buf.getD tos 0)
         else (if st.buf.getD tos 0 % 2 = 1 then st.buf.getD tos 0 + 1
               else st.buf.getD tos 0)) ∧
      (decide (n < 0x100 ∧ payload + 3 + 2 * n < 0x100) = true →
        st2.buf.getD (tos + 1) 0 ≠ 0) ∧
      (decide (n < 0x100 ∧ payload + 3 + 2 * n < 0x100) = false →
        st2.buf.getD (tos + 1) 0 = 0) := by
  subst hn
  subst hpay
  simp only [JasonBuilder.close, hstack]
  rw [if_neg (show ¬(st.buf.getD tos 0 < 0x05 ∨ 0x08 < st.buf.getD tos 0) by omega)]
  have hD : decide ((st.index.getD stackRest.length []).length < 0x100 ∧
      st.buf.length - tos - 8 + 1 + 2 * (st.index.getD stackRest.length []).length < 0x100) =
      decide ((st.index.getD stackRest.length []).length < 0x100 ∧
        st.buf.length - (tos + 10) + 3 + 2 * (st.index.getD stackRest.length []).length
          < 0x100) := by
    rw [decide_eq_decide]
    omega
  rw [hD]
  set idx := st.index.getD stackRest.length [] with hidx
  set D1 : Bool := decide (idx.length < 0x100 ∧
    st.buf.length - (tos + 10) + 3 + 2 * idx.length < 0x100) with hD1
  set D2 : Bool := decide (idx.length < 0x100 ∧ (idx.length = 0 ∨ idx.getLastD 0 < 0x10000))
    with hD2
  refine ⟨_, rfl, ?_, ?_, ?_⟩
  · dsimp only
    rw [getD_writeByteLength_tos]
    by_cases hor : (D1 || D2) = true
    · rw [if_pos hor, if_pos hor]
      by_cases hd1 : D1 = true
      · rw [if_pos hd1]
        have hfacts := take_drop_small_facts st.buf tos hpos
        rw [getD_closeTableSmall_tos _ _ _ _ (by rw [hfacts.2]; omega), hfacts.1]
      · rw [if_neg hd1]
        exact getD_closeTableSmall_tos _ _ _ _ (by omega)
    · rw [if_neg hor, if_neg hor]
      by_cases hd1 : D1 = true
      · simp [hd1] at hor
      · rw [if_neg hd1]
        exact getD_closeTableLarge_tos _ _ _ _ (by omega)
  · intro hd1
    dsimp only
    rw [if_pos (show (D1 || D2) = true by simp [hd1]), if_pos hd1, if_pos hd1, hd1]
    have hfacts := take_drop_small_facts st.buf tos hpos
    have hlen : (closeTableSmall opts tos (st.buf.take (tos + 2) ++ st.buf.drop (tos + 10))
        (idx.map (· - 8))).length =
        st.buf.length - 8 + (if idx.length ≠ 0 then 2 * idx.length + 1 else 0) := by
      rw [length_closeTableSmall, hfacts.2, List.length_map]
    rw [getD_writeByteLength_small _ _ (by rw [hlen]; omega)]
    rw [hlen]
    rw [hD1] at hd1
    have hprop := of_decide_eq_true hd1
    by_cases hn0 : idx.length = 0
    · rw [if_neg (by omega)]
      omega
    · rw [if_pos hn0]
      omega
  · intro hd1
    dsimp only
    rw [if_neg (show ¬ D1 = true by simp [hd1]), if_neg (show ¬ D1 = true by simp [hd1]), hd1]
    simp only [Bool.false_or]
    by_cases hd2 : D2 = true
    · rw [if_pos hd2]
      exact getD_writeByteLength_large _ _ (by rw [length_closeTableSmall]; omega)
    · rw [if_neg hd2]
      exact getD_writeByteLength_large _ _ (by rw [length_closeTableLarge]; omega)

/-- C1 counterexample: closing `c1State` (an array with two entries,
`payload_bytes = 249`).  The claim's condition holds — `n = 2 < 256` and
`payload_bytes + 1 + 2n = 254 < 256` — yet the builder does not choose
the small representation: `smallByteLength` is false and the sealed
value carries the large byte-length form (the byte at `tos + 1` is 0);
only the index table is small and the tag stays `0x05`. -/
theorem close_threshold_counterexample :
    (c1State.map fun st => (st.buf.length, st.stack, st.index.getD 0 [])) =
      .ok (259, [0], [10, 136]) ∧
    ((c1State.bind (JasonBuilder.close ⟨true, false⟩)).map fun r =>
      (r.2.1, r.2.2, r.1.buf.getD 1 0, r.1.buf.getD 0 0)) = .ok (false, true, 0, 0x05) ∧
    ((2 : Nat) < 256 ∧ 259 - (0 + 10) + 1 + 2 * 2 < 256) := by
  refine ⟨rfl, rfl, by decide⟩

theorem close_variant_choice_witness :
    (addCompoundValue 0x05 bEmpty).stack = 0 :: [] ∧
    0 = ((addCompoundValue 0x05 bEmpty).index.getD ([] : List Nat).length []).length ∧
    0 = (addCompoundValue 0x05 bEmpty).buf.length - (0 + 10) ∧
    0x05 ≤ (addCompoundValue 0x05 bEmpty).buf.getD 0 0 ∧ (addCompoundValue 0x05 bEmpty).buf.getD 0 0 ≤ 0x08 ∧
    0 + 10 ≤ (addCompoundValue 0x05 bEmpty).buf.length ∧
    (∃ st2 : BState,
      JasonBuilder.close ⟨true, false⟩ (addCompoundValue 0x05 bEmpty) = .ok (st2,
        decide ((0 : Nat) < 0x100 ∧ 0 + 3 + 2 * 0 < 0x100),
        (decide ((0 : Nat) < 0x100 ∧ 0 + 3 + 2 * 0 < 0x100) ||
          decide ((0 : Nat) < 0x100 ∧ ((0 : Nat) = 0 ∨
          ((addCompoundValue 0x05 bEmpty).index.getD ([] : List Nat).length []).getLastD 0
            < 0x10000)))) ∧
      st2.buf.getD 0 0 =
        (if (decide ((0 : Nat) < 0x100 ∧ 0 + 3 + 2 * 0 < 0x100) ||
            decide ((0 : Nat) < 0x100 ∧ ((0 : Nat) = 0 ∨
          ((addCompoundValue 0x05 bEmpty).index.getD ([] : List Nat).length []).getLastD 0
            < 0x10000))) = true
         then (if (addCompoundValue 0x05 bEmpty).buf.getD 0 0 % 2 = 0 then (addCompoundValue 0x05 bEmpty).buf.getD 0 0 - 1 else (addCompoundValue 0x05 bEmpty).buf.getD 0 0)
         else (if (addCompoundValue 0x05 bEmpty).buf.getD 0 0 % 2 = 1 then (addCompoundValue 0x05 bEmpty).buf.getD 0 0 + 1
               else (addCompoundValue 0x05 bEmpty).buf.getD 0 0)) ∧
      (decide ((0 : Nat) < 0x100 ∧ 0 + 3 + 2 * 0 < 0x100) = true →
        st2.buf.getD (0 + 1) 0 ≠ 0) ∧
      (decide ((0 : Nat) < 0x100 ∧ 0 + 3 + 2 * 0 < 0x100) = false →
        st2.buf.getD (0 + 1) 0 = 0)) :=
  ⟨rfl, rfl, rfl, by decide, by decide, by decide,
   close_variant_choice ⟨true, false⟩ (addCompoundValue 0x05 bEmpty) 0 [] 0 0
     rfl rfl rfl (by decide) (by decide) (by decide)⟩

end VPack
